import Mathlib

/-!
Shallow embedding of the Agora governance contracts
(`AgoraFactory.sol`, `Assembly.sol`, `AssemblyPassports.sol`, `Contest.sol`).

Conventions of the embedding:
* `Addr` models a 160-bit account address as a `Nat` (`0` is `address(0)`).
* Solidity `uint256` values are `Nat`s; arithmetic in Solidity ≥0.8 is
  checked, so where an overflow is reachable from arbitrary `uint256`
  inputs the model raises an explicit `.Panic` error: the
  `end = offset + limit` addition of `getAssembliesPaginated` and the
  `votingEnd = block.timestamp + _votingDuration` addition of
  `Contest.__init`.  The vote / balance counters grow only by 1 per
  distinct address per call, so their checked increments cannot overflow
  and are modelled as plain `Nat` increments.
* A Solidity `revert` rolls the whole call back, so every mutating function
  is `State → … → Except Err State`: an `.error` result means the chain
  state is exactly the pre-state.
* Solidity `mapping`s default to zero values; they are modelled as total
  functions out of the key type, and a fresh clone's storage is the
  all-zero `initial…State`.
* `block.timestamp` is passed explicitly as a `now : Nat` argument.
-/

namespace Agora

/-- Model of a 160-bit account address. -/
abbrev Addr := Nat

/-- Source `2 ^ 256`, the modulus of Solidity `uint256` checked arithmetic. -/
def UINT256_MOD : Nat := 2 ^ 256

/-- The custom errors (and the checked-arithmetic panic) the four contracts
can revert with. -/
inductive Err where
  | AlreadyInitialized
  | NotInitialized
  | EmptyMetadataURI
  | InvalidContestImplementation
  | EmptyPrompt
  | NotEnoughOptions
  | TooManyOptions
  | InvalidVotingPeriod
  | EmptyOption
  | VotingEnded
  | VotingNotEnded
  | AlreadyVoted
  | InvalidOption
  | MissingRequiredPassport
  | OnlyAssembly
  | TransfersNotAllowed
  | PassportTypeDoesNotExist
  | AlreadyHoldsPassport
  | NotAllowlisted
  | EmptyName
  | EmptyURI
  | EmptyAddressArray
  | Unauthorized
  | ContestNotFound
  | AssemblyNotFound
  | IndexOutOfBounds
  | Panic
  deriving DecidableEq, Repr

/-! ## AssemblyPassports (`AssemblyPassports.sol`) -/

namespace AssemblyPassports

/-- Source `struct PassportType { string name; string uri; bool isOpen; bool exists; }` -/
structure PassportType where
  name : String
  uri : String
  isOpen : Bool
  exists_ : Bool
  deriving DecidableEq, Repr

/-- The zero value a Solidity `mapping(uint256 => PassportType)` returns for
an absent key. -/
def PassportType.default : PassportType :=
  { name := "", uri := "", isOpen := false, exists_ := false }

/-- Storage of one `AssemblyPassports` contract.
`balances` is the inherited ERC-1155 `_balances[id][account]` mapping. -/
structure State where
  owner : Addr
  nextTokenId : Nat
  passportTypes : Nat → PassportType
  allowlist : Nat → Addr → Bool
  balances : Nat → Addr → Nat

/-- Source `constructor(address assemblyAddress)`: fresh ledger owned by the
Assembly, token ids start at 1. -/
def mk (assemblyAddress : Addr) : State :=
  { owner := assemblyAddress
    nextTokenId := 1
    passportTypes := fun _ => PassportType.default
    allowlist := fun _ _ => false
    balances := fun _ _ => 0 }

/-- Source `balanceOf(address account, uint256 tokenId)`. -/
def balanceOf (s : State) (account : Addr) (tokenId : Nat) : Nat :=
  s.balances tokenId account

/-- Source `holdsPassport(address account, uint256 tokenId)`. -/
def holdsPassport (s : State) (account : Addr) (tokenId : Nat) : Bool :=
  decide (balanceOf s account tokenId > 0)

/-- Source `holdsAnyPassport(address account, uint256[] tokenIds)`: the source loop
returns `true` at the first positive balance, which is `List.any`. -/
def holdsAnyPassport (s : State) (account : Addr) (tokenIds : List Nat) : Bool :=
  tokenIds.any fun t => decide (balanceOf s account t > 0)

/-- Source `createPassportType(string name, string metadataUri, bool isOpen)`,
`onlyOwner`; returns the new token id together with the new state. -/
def createPassportType (s : State) (caller : Addr) (name metadataUri : String)
    (isOpen : Bool) : Except Err (Nat × State) :=
  if caller ≠ s.owner then .error .Unauthorized
  else if name = "" then .error .EmptyName
  else if metadataUri = "" then .error .EmptyURI
  else
    let tokenId := s.nextTokenId
    .ok (tokenId,
      { s with
        nextTokenId := s.nextTokenId + 1
        passportTypes := fun t =>
          if t = tokenId then
            { name := name, uri := metadataUri, isOpen := isOpen, exists_ := true }
          else s.passportTypes t })

/-- Source `addToAllowlist(uint256 tokenId, address[] accounts)`, `onlyOwner`. -/
def addToAllowlist (s : State) (caller : Addr) (tokenId : Nat)
    (accounts : List Addr) : Except Err State :=
  if caller ≠ s.owner then .error .Unauthorized
  else if (s.passportTypes tokenId).exists_ = false then .error .PassportTypeDoesNotExist
  else if accounts = [] then .error .EmptyAddressArray
  else
    .ok { s with
      allowlist := fun t a =>
        if t = tokenId ∧ a ∈ accounts then true else s.allowlist t a }

/-- ERC-1155 `_mint(to, id, 1, "")` as specialised by this contract
(`to` is a Lean keyword, rendered `recipient`). -/
def _mint (s : State) (recipient : Addr) (tokenId : Nat) : State :=
  { s with
    balances := fun t a =>
      if t = tokenId ∧ a = recipient then s.balances t a + 1 else s.balances t a }

/-- Source `mint(uint256 tokenId)`: self-service mint by `caller`.  Checks, in
source order: type exists, caller does not already hold one, then (only for
non-open types) the allowlist.  The source caches
`passportTypes[tokenId]` in a local `passportType`; it is inlined here. -/
def mint (s : State) (caller : Addr) (tokenId : Nat) : Except Err State :=
  if (s.passportTypes tokenId).exists_ = false then .error .PassportTypeDoesNotExist
  else if balanceOf s caller tokenId > 0 then .error .AlreadyHoldsPassport
  else if (s.passportTypes tokenId).isOpen = false ∧ s.allowlist tokenId caller = false then
    .error .NotAllowlisted
  else .ok (_mint s caller tokenId)

/-- Source `mintTo(address to, uint256 tokenId)`, `onlyOwner`: same existence and
duplicate checks as `mint` but no open/allowlist eligibility check. -/
def mintTo (s : State) (caller recipient : Addr) (tokenId : Nat) : Except Err State :=
  if caller ≠ s.owner then .error .Unauthorized
  else if (s.passportTypes tokenId).exists_ = false then .error .PassportTypeDoesNotExist
  else if balanceOf s recipient tokenId > 0 then .error .AlreadyHoldsPassport
  else .ok (_mint s recipient tokenId)

/-- Source `safeTransferFrom(address, address, uint256, uint256, bytes)` — the
override reverts unconditionally, before looking at any argument. -/
def safeTransferFrom (_s : State) (_caller _source _dest : Addr) (_tokenId _amount : Nat) :
    Except Err State :=
  .error .TransfersNotAllowed

/-- Source `safeBatchTransferFrom(address, address, uint256[], uint256[], bytes)` —
the override reverts unconditionally, before looking at any argument. -/
def safeBatchTransferFrom (_s : State) (_caller _source _dest : Addr)
    (_tokenIds _amounts : List Nat) : Except Err State :=
  .error .TransfersNotAllowed

end AssemblyPassports

/-! ## Contest (`Contest.sol`) -/

namespace Contest

/-- Source `MAX_OPTIONS = 10`. -/
def MAX_OPTIONS : Nat := 10

/-- Storage of one `Contest` contract.  `voteTally`, `hasVoted` and
`userVote` are Solidity mappings, hence total functions defaulting to 0 /
`false`. -/
structure State where
  initialized : Bool
  assemblyAddress : Addr
  passports : Addr
  prompt : String
  options : List String
  votingEnd : Nat
  requiredPassports : List Nat
  voteTally : Nat → Nat
  hasVoted : Addr → Bool
  userVote : Addr → Nat
  totalVotes : Nat

/-- The all-zero storage a fresh `Clones.clone` of `Contest` starts with. -/
def initialState : State :=
  { initialized := false
    assemblyAddress := 0
    passports := 0
    prompt := ""
    options := []
    votingEnd := 0
    requiredPassports := []
    voteTally := fun _ => 0
    hasVoted := fun _ => false
    userVote := fun _ => 0
    totalVotes := 0 }

/-- Source `__init(address _assembly, address _passports, string _prompt,
string[] _options, uint256 _votingDuration, uint256[] _requiredPassports)`,
with `block.timestamp` passed as `now`.  Checks in source order; after all
validation passes, the assignment `votingEnd = block.timestamp +
_votingDuration` is a checked `uint256` addition, so when it exceeds
`2^256 - 1` the call reverts with an arithmetic panic (`.Panic`). -/
def __init (s : State) (_assembly _passports : Addr) (_prompt : String)
    (_options : List String) (_votingDuration : Nat) (_requiredPassports : List Nat)
    (now : Nat) : Except Err State :=
  if s.initialized then .error .AlreadyInitialized
  else if _prompt = "" then .error .EmptyPrompt
  else if _options.length < 2 then .error .NotEnoughOptions
  else if _options.length > MAX_OPTIONS then .error .TooManyOptions
  else if _votingDuration = 0 then .error .InvalidVotingPeriod
  else if _options.any (fun o => o = "") then .error .EmptyOption
  else if UINT256_MOD ≤ now + _votingDuration then .error .Panic
  else
    .ok { s with
      assemblyAddress := _assembly
      passports := _passports
      prompt := _prompt
      options := _options
      votingEnd := now + _votingDuration
      requiredPassports := _requiredPassports
      initialized := true }

/-- Source `vote(uint256 optionIndex)`.  The `votingActive` modifier
(`block.timestamp >= votingEnd → VotingEnded`) runs before the body, whose
checks follow in source order.  `ps` is the state of the
`AssemblyPassports` contract that `passports` points to (the
`holdsAnyPassport` staticcall is a pure read of that state). -/
def vote (ps : AssemblyPassports.State) (s : State) (caller : Addr)
    (optionIndex : Nat) (now : Nat) : Except Err State :=
  if s.votingEnd ≤ now then .error .VotingEnded
  else if s.initialized = false then .error .NotInitialized
  else if s.hasVoted caller then .error .AlreadyVoted
  else if s.options.length ≤ optionIndex then .error .InvalidOption
  else if s.requiredPassports.length > 0 ∧
      AssemblyPassports.holdsAnyPassport ps caller s.requiredPassports = false then
    .error .MissingRequiredPassport
  else
    .ok { s with
      hasVoted := fun a => if a = caller then true else s.hasVoted a
      userVote := fun a => if a = caller then optionIndex else s.userVote a
      voteTally := fun i => if i = optionIndex then s.voteTally i + 1 else s.voteTally i
      totalVotes := s.totalVotes + 1 }

/-- Revert semantics of a `vote` call: an `.error` leaves the chain state
exactly as it was. -/
def voteRun (ps : AssemblyPassports.State) (s : State) (caller : Addr)
    (optionIndex : Nat) (now : Nat) : State :=
  ((vote ps s caller optionIndex now).toOption).getD s

/-- Source `getResults()`: option names, per-option tallies, total. -/
def getResults (s : State) : List String × List Nat × Nat :=
  (s.options, (List.range s.options.length).map s.voteTally, s.totalVotes)

/-- The loop of `getWinner`: starting from `(0, voteTally[0])`, scan
`i = 1 .. options.length - 1` keeping the first strictly greater tally. -/
def getWinnerLoop (tally : Nat → Nat) (len : Nat) : Nat × Nat :=
  (List.range' 1 (len - 1)).foldl
    (fun best i => if tally i > best.2 then (i, tally i) else best)
    (0, tally 0)

/-- Source `getWinner()`, guarded by the `votingComplete` modifier
(`block.timestamp < votingEnd → VotingNotEnded`). -/
def getWinner (s : State) (now : Nat) : Except Err (Nat × Nat) :=
  if now < s.votingEnd then .error .VotingNotEnded
  else .ok (getWinnerLoop s.voteTally s.options.length)

/-- Source `isActive()`. -/
def isActive (s : State) (now : Nat) : Bool :=
  s.initialized && decide (now < s.votingEnd)

/-- Source `canVote(address voter)`, following the source's early-return chain. -/
def canVote (ps : AssemblyPassports.State) (s : State) (voter : Addr)
    (now : Nat) : Bool :=
  if s.initialized = false then false
  else if s.votingEnd ≤ now then false
  else if s.hasVoted voter then false
  else if s.requiredPassports.length > 0 then
    AssemblyPassports.holdsAnyPassport ps voter s.requiredPassports
  else true

/-- Source `timeRemaining()`. -/
def timeRemaining (s : State) (now : Nat) : Nat :=
  if s.initialized = false ∨ s.votingEnd ≤ now then 0
  else s.votingEnd - now

/-- Source `isGated()`. -/
def isGated (s : State) : Bool :=
  decide (s.requiredPassports.length > 0)

/-- The states of one `Contest` clone reachable on chain: the zeroed clone
storage, then any sequence of successful `__init` and `vote` calls (the
only mutating entry points of the contract), at arbitrary times, against
arbitrary passport-ledger states. -/
inductive Reachable : State → Prop where
  | initial : Reachable initialState
  | step_init {s s' : State} {a p : Addr} {pr : String} {opts : List String}
      {dur : Nat} {req : List Nat} {now : Nat} :
      Reachable s → __init s a p pr opts dur req now = .ok s' → Reachable s'
  | step_vote {ps : AssemblyPassports.State} {s s' : State} {caller : Addr}
      {idx now : Nat} :
      Reachable s → vote ps s caller idx now = .ok s' → Reachable s'

end Contest

/-! ## Assembly (`Assembly.sol`)

The contract inherits OpenZeppelin `AccessControl`.  Only two role ids
occur (`DEFAULT_ADMIN_ROLE = 0x00` and `ADMIN_ROLE = keccak256("ADMIN_ROLE")`)
and no `_setRoleAdmin` call is ever made, so `getRoleAdmin` of either role
is `DEFAULT_ADMIN_ROLE`; the public `grantRole`/`revokeRole` therefore
require the *caller* to hold `DEFAULT_ADMIN_ROLE`. -/

namespace Assembly

/-- The two role identifiers used by the contract. -/
inductive Role where
  | defaultAdmin
  | admin
  deriving DecidableEq, Repr

/-- Storage of one `Assembly` contract. -/
structure State where
  initialized : Bool
  contestImplementation : Addr
  passports : Addr
  metadataURI : String
  contests : List Addr
  isContest : Addr → Bool
  roles : Role → Addr → Bool
  adminList : List Addr
  isAdminMap : Addr → Bool

/-- The all-zero storage a fresh `Clones.clone` of `Assembly` starts with. -/
def initialState : State :=
  { initialized := false
    contestImplementation := 0
    passports := 0
    metadataURI := ""
    contests := []
    isContest := fun _ => false
    roles := fun _ _ => false
    adminList := []
    isAdminMap := fun _ => false }

/-- Source `AccessControl.hasRole`. -/
def hasRole (s : State) (role : Role) (account : Addr) : Bool :=
  s.roles role account

/-- Internal `_grantRole`: sets the bit, no authorization check. -/
def _grantRole (s : State) (role : Role) (account : Addr) : State :=
  { s with roles := fun r a => if r = role ∧ a = account then true else s.roles r a }

/-- Public `AccessControl.grantRole(role, account)`: requires the caller to
hold the role's admin role, which here is always `DEFAULT_ADMIN_ROLE`. -/
def grantRole (s : State) (caller : Addr) (role : Role) (account : Addr) :
    Except Err State :=
  if hasRole s .defaultAdmin caller = false then .error .Unauthorized
  else .ok (_grantRole s role account)

/-- Public `AccessControl.revokeRole(role, account)`: requires the caller to
hold `DEFAULT_ADMIN_ROLE`; clears the bit (a no-op if not held). -/
def revokeRole (s : State) (caller : Addr) (role : Role) (account : Addr) :
    Except Err State :=
  if hasRole s .defaultAdmin caller = false then .error .Unauthorized
  else .ok { s with
    roles := fun r a => if r = role ∧ a = account then false else s.roles r a }

/-- Source `__init(address creator, string _metadataURI, address _contestImplementation)`.
`address(new AssemblyPassports(address(this)))` deploys a fresh ledger; the
address the chain assigns it is passed in as `freshPassports`. -/
def __init (s : State) (creator : Addr) (_metadataURI : String)
    (_contestImplementation : Addr) (freshPassports : Addr) : Except Err State :=
  if s.initialized then .error .AlreadyInitialized
  else if _metadataURI = "" then .error .EmptyMetadataURI
  else if _contestImplementation = 0 then .error .InvalidContestImplementation
  else
    let s1 := _grantRole (_grantRole s .defaultAdmin creator) .admin creator
    .ok { s1 with
      adminList := s1.adminList ++ [creator]
      isAdminMap := fun a => if a = creator then true else s1.isAdminMap a
      passports := freshPassports
      metadataURI := _metadataURI
      contestImplementation := _contestImplementation
      initialized := true }

/-- Source `addAdmin(address newAdmin)`, modifiers `onlyRole(ADMIN_ROLE)` then
`whenInitialized`; the body conditionally appends to the list and then calls
the public `grantRole` (whose own `DEFAULT_ADMIN_ROLE` check can still
revert the whole call, list append included). -/
def addAdmin (s : State) (caller newAdmin : Addr) : Except Err State :=
  if hasRole s .admin caller = false then .error .Unauthorized
  else if s.initialized = false then .error .NotInitialized
  else
    let s1 :=
      if s.isAdminMap newAdmin then s
      else { s with
        adminList := s.adminList ++ [newAdmin]
        isAdminMap := fun a => if a = newAdmin then true else s.isAdminMap a }
    grantRole s1 caller .admin newAdmin

/-- Source `removeAdmin(address admin)`, modifiers `onlyRole(ADMIN_ROLE)` then
`whenInitialized`; the body only calls the public `revokeRole` — the
`_adminList` / `_isAdmin` bookkeeping is left untouched. -/
def removeAdmin (s : State) (caller admin : Addr) : Except Err State :=
  if hasRole s .admin caller = false then .error .Unauthorized
  else if s.initialized = false then .error .NotInitialized
  else revokeRole s caller .admin admin

/-- Source `isAdmin(address account)`. -/
def isAdmin (s : State) (account : Addr) : Bool :=
  hasRole s .admin account

/-- Source `getAdminCount()`. -/
def getAdminCount (s : State) : Nat :=
  s.adminList.length

/-- Source `getAdminAt(uint256 index)`: `require(index < _adminList.length)`. -/
def getAdminAt (s : State) (index : Nat) : Except Err Addr :=
  if h : index < s.adminList.length then .ok (s.adminList.get ⟨index, h⟩)
  else .error .IndexOutOfBounds

end Assembly

/-! ## AgoraFactory (`AgoraFactory.sol`) -/

namespace AgoraFactory

/-- Storage of the factory (the two immutable implementation addresses are
irrelevant to the paginated query and omitted). -/
structure State where
  assemblies : List Addr
  isAssembly : Addr → Bool
  assembliesByCreator : Addr → List Addr

/-- Source `getAssemblyCount()`. -/
def getAssemblyCount (s : State) : Nat :=
  s.assemblies.length

/-- Source `getAllAssemblies()`. -/
def getAllAssemblies (s : State) : List Addr :=
  s.assemblies

/-- Source `getAssembliesPaginated(uint256 offset, uint256 limit)`.
`end = offset + limit` is Solidity ≥0.8 checked `uint256` addition: when it
exceeds `2^256 - 1` the call reverts with an arithmetic panic, modelled as
`.error .Panic`.  The copy loop `paginated[i] = assemblies[offset + i]` is
the `List.range` map; the source's locals `total`, `end` (clamped to
`total`) and `resultLength` are inlined. -/
def getAssembliesPaginated (s : State) (offset limit : Nat) :
    Except Err (List Addr × Nat) :=
  if s.assemblies.length ≤ offset then .ok ([], s.assemblies.length)
  else if UINT256_MOD ≤ offset + limit then .error .Panic
  else
    .ok ((List.range ((if s.assemblies.length < offset + limit then
          s.assemblies.length else offset + limit) - offset)).map
        (fun i => s.assemblies.getD (offset + i) 0),
      s.assemblies.length)

/-- Source `getRecentAssemblies(uint256 count)`: newest first, clamped to `total`. -/
def getRecentAssemblies (s : State) (count : Nat) : List Addr :=
  let total := s.assemblies.length
  let count' := if total < count then total else count
  (List.range count').map (fun i => s.assemblies.getD (total - 1 - i) 0)

end AgoraFactory

/-! ## Concrete example states -/

/-- A passport ledger owned by Assembly address `3`, as freshly deployed. -/
def exPassports : AssemblyPassports.State := AssemblyPassports.mk 3

/-- The contest obtained by initializing a fresh clone at time `0` with
prompt `"Q"`, options `["A", "B"]`, duration `10`, ungated. -/
def exContest1 : Contest.State :=
  (Contest.__init Contest.initialState 1 2 "Q" ["A", "B"] 10 [] 0).toOption.getD
    Contest.initialState

/-- Source `exContest1` after voter `7` votes for option `0` at time `0`. -/
def exContest2 : Contest.State :=
  (Contest.vote exPassports exContest1 7 0 0).toOption.getD exContest1

/-- The example ledger after the Assembly (`owner = 3`) creates open
passport type `1`. -/
def exPassports1 : AssemblyPassports.State :=
  ((AssemblyPassports.createPassportType exPassports 3 "Member" "u" true).toOption.getD
    (0, exPassports)).2

/-- The example ledger after address `7` self-mints passport type `1`. -/
def exPassports2 : AssemblyPassports.State :=
  (AssemblyPassports.mint exPassports1 7 1).toOption.getD exPassports1

/-- The example Assembly after a fresh clone is initialized by creator `5`
with metadata URI `"m"`, contest implementation `7`, passports at `9`. -/
def exAssembly1 : Assembly.State :=
  (Assembly.__init Assembly.initialState 5 "m" 7 9).toOption.getD
    Assembly.initialState

/-- Source `exAssembly1` after the creator removes itself as admin. -/
def exAssembly2 : Assembly.State :=
  (Assembly.removeAdmin exAssembly1 5 5).toOption.getD exAssembly1

/-- Concrete ended contest with three options and tallies `[3, 3, 1]`. -/
def exContest331 : Contest.State :=
  { Contest.initialState with
    initialized := true
    options := ["A", "B", "C"]
    votingEnd := 5
    voteTally := fun i => [3, 3, 1].getD i 0
    totalVotes := 7 }

/-- Concrete ended contest with three options and all-zero tallies. -/
def exContest000 : Contest.State :=
  { Contest.initialState with
    initialized := true
    options := ["A", "B", "C"]
    votingEnd := 5 }

/-- A factory state that has registered two Assemblies, `11` and `22`,
both created by `5`. -/
def exFactory2 : AgoraFactory.State :=
  { assemblies := [11, 22]
    isAssembly := fun a => decide (a = 11 ∨ a = 22)
    assembliesByCreator := fun c => if c = 5 then [11, 22] else [] }

/-- A factory state that has registered three Assemblies `10`, `20`, `30`. -/
def exFactory3 : AgoraFactory.State :=
  { assemblies := [10, 20, 30]
    isAssembly := fun a => decide (a = 10 ∨ a = 20 ∨ a = 30)
    assembliesByCreator := fun c => if c = 5 then [10, 20, 30] else [] }

/-- The state a successful `Assembly.__init` write sequence produces. -/
def Assembly.postInit (s : Assembly.State) (creator : Addr) (uri : String)
    (impl fresh : Addr) : Assembly.State :=
  let s1 := Assembly._grantRole (Assembly._grantRole s .defaultAdmin creator)
    .admin creator
  { s1 with
    adminList := s1.adminList ++ [creator]
    isAdminMap := fun a => if a = creator then true else s1.isAdminMap a
    passports := fresh
    metadataURI := uri
    contestImplementation := impl
    initialized := true }

/-- The state a successful `Contest.__init` write sequence produces. -/
def Contest.postInit (s : Contest.State) (a p : Addr) (pr : String)
    (opts : List String) (dur : Nat) (req : List Nat) (now : Nat) : Contest.State :=
  { s with
    assemblyAddress := a
    passports := p
    prompt := pr
    options := opts
    votingEnd := now + dur
    requiredPassports := req
    initialized := true }

/-! ## Inversion lemmas for the mutating operations -/

namespace Contest

/-- Successful `__init` inversion: the guards that passed and the exact
post-state. -/
theorem __init_ok_inversion {s : State} {a p : Addr} {pr : String}
    {opts : List String} {dur : Nat} {req : List Nat} {now : Nat} {s' : State}
    (h : __init s a p pr opts dur req now = .ok s') :
    s.initialized = false ∧ pr ≠ "" ∧ 2 ≤ opts.length ∧ opts.length ≤ MAX_OPTIONS ∧
    dur ≠ 0 ∧ now + dur < UINT256_MOD ∧
    s' = { s with
      assemblyAddress := a
      passports := p
      prompt := pr
      options := opts
      votingEnd := now + dur
      requiredPassports := req
      initialized := true } := by
  unfold __init at h
  split at h
  · exact absurd h (by simp)
  · split at h
    · exact absurd h (by simp)
    · split at h
      · exact absurd h (by simp)
      · split at h
        · exact absurd h (by simp)
        · split at h
          · exact absurd h (by simp)
          · split at h
            · exact absurd h (by simp)
            · split at h
              · exact absurd h (by simp)
              · rename_i h1 h2 h3 h4 h5 h6 h7
                refine ⟨by simpa using h1, h2, by omega, by omega, h5, by omega, ?_⟩
                exact (Except.ok.inj h).symm

/-- Successful `vote` inversion: the guards that passed and the exact
post-state. -/
theorem vote_ok_inversion {ps : AssemblyPassports.State} {s : State}
    {caller : Addr} {idx now : Nat} {s' : State}
    (h : vote ps s caller idx now = .ok s') :
    now < s.votingEnd ∧ s.initialized = true ∧ s.hasVoted caller = false ∧
    idx < s.options.length ∧
    s' = { s with
      hasVoted := fun a => if a = caller then true else s.hasVoted a
      userVote := fun a => if a = caller then idx else s.userVote a
      voteTally := fun i => if i = idx then s.voteTally i + 1 else s.voteTally i
      totalVotes := s.totalVotes + 1 } := by
  unfold vote at h
  split at h
  · exact absurd h (by simp)
  · split at h
    · exact absurd h (by simp)
    · split at h
      · exact absurd h (by simp)
      · split at h
        · exact absurd h (by simp)
        · split at h
          · exact absurd h (by simp)
          · rename_i h1 h2 h3 h4 h5
            refine ⟨by omega, by simpa using h2, by simpa using h3, by omega, ?_⟩
            exact (Except.ok.inj h).symm

end Contest

/-! ## Claim theorems -/

/-- C3: for every caller (including the owning Assembly), every holder pair,
every token id, amount, and id/amount batch, both `safeTransferFrom` and
`safeBatchTransferFrom` of `AssemblyPassports` fail with `TransfersNotAllowed`
unconditionally, so neither ever produces a post-state: no credential
balance is ever moved between holders. -/
theorem passports_transfers_always_revert (s : AssemblyPassports.State)
    (caller source dest : Addr) (tokenId amount : Nat) (tokenIds amounts : List Nat) :
    AssemblyPassports.safeTransferFrom s caller source dest tokenId amount
      = .error .TransfersNotAllowed ∧
    AssemblyPassports.safeBatchTransferFrom s caller source dest tokenIds amounts
      = .error .TransfersNotAllowed ∧
    (∀ s', AssemblyPassports.safeTransferFrom s caller source dest tokenId amount
      ≠ .ok s') ∧
    (∀ s', AssemblyPassports.safeBatchTransferFrom s caller source dest tokenIds amounts
      ≠ .ok s') := by
  refine ⟨rfl, rfl, ?_, ?_⟩ <;> intro s' h <;> exact Except.noConfusion h

/-- C7: `canVote(addr)` returns `true` iff the contest is initialized, the
current time is before `votingEnd` (that is, `isActive()`), `addr` has not
voted, and the required-passport list is empty or `addr` holds at least one
required passport. -/
theorem contest_canVote_iff (ps : AssemblyPassports.State) (s : Contest.State)
    (voter : Addr) (now : Nat) :
    Contest.canVote ps s voter now = true ↔
      (Contest.isActive s now = true ∧ s.hasVoted voter = false ∧
        (s.requiredPassports = [] ∨
          AssemblyPassports.holdsAnyPassport ps voter s.requiredPassports = true)) := by
  unfold Contest.canVote Contest.isActive
  cases hinit : s.initialized with
  | false => simp
  | true =>
    by_cases hend : s.votingEnd ≤ now
    · simp [hend, (by omega : ¬ now < s.votingEnd)]
    · have hlt : now < s.votingEnd := by omega
      by_cases hvoted : s.hasVoted voter
      · simp [hend, hvoted, hlt]
      · rcases hreq : s.requiredPassports with _ | ⟨t, ts⟩
        · simp [hend, hvoted, hlt, hreq]
        · simp [hend, hvoted, hlt, hreq]

/-- Forward evaluation of `Assembly.__init` on an uninitialized state with
valid arguments. -/
theorem Assembly.assemblyInit_eq_ok (s : Assembly.State) (creator : Addr)
    (uri : String) (impl fresh : Addr) (h1 : s.initialized = false)
    (h2 : uri ≠ "") (h3 : impl ≠ 0) :
    Assembly.__init s creator uri impl fresh
      = .ok (Assembly.postInit s creator uri impl fresh) := by
  unfold Assembly.__init Assembly.postInit
  simp [h1, h2, h3]

/-- Forward evaluation of `Contest.__init` on an uninitialized state with
valid arguments. -/
theorem Contest.__init_eq_ok (s : Contest.State) (a p : Addr) (pr : String)
    (opts : List String) (dur : Nat) (req : List Nat) (now : Nat)
    (h1 : s.initialized = false) (h2 : pr ≠ "") (h3 : 2 ≤ opts.length)
    (h4 : opts.length ≤ Contest.MAX_OPTIONS) (h5 : dur ≠ 0)
    (h6 : ∀ o ∈ opts, o ≠ "") (h7 : now + dur < UINT256_MOD) :
    Contest.__init s a p pr opts dur req now
      = .ok (Contest.postInit s a p pr opts dur req now) := by
  have hne : opts.any (fun o => o = "") = false := by
    simp only [List.any_eq_false, decide_eq_true_eq]
    exact fun o ho => h6 o ho
  unfold Contest.__init Contest.postInit
  simp [h1, h2, h5, hne, Nat.not_lt.mpr h3, Nat.not_lt.mpr h4, Nat.not_le.mpr h7]

/-- Forward evaluation of `Contest.__init` when every validation check
passes but `votingEnd = block.timestamp + _votingDuration` overflows
`uint256`: the checked addition reverts with an arithmetic panic. -/
theorem Contest.__init_eq_panic (s : Contest.State) (a p : Addr) (pr : String)
    (opts : List String) (dur : Nat) (req : List Nat) (now : Nat)
    (h1 : s.initialized = false) (h2 : pr ≠ "") (h3 : 2 ≤ opts.length)
    (h4 : opts.length ≤ Contest.MAX_OPTIONS) (h5 : dur ≠ 0)
    (h6 : ∀ o ∈ opts, o ≠ "") (h7 : UINT256_MOD ≤ now + dur) :
    Contest.__init s a p pr opts dur req now = .error .Panic := by
  have hne : opts.any (fun o => o = "") = false := by
    simp only [List.any_eq_false, decide_eq_true_eq]
    exact fun o ho => h6 o ho
  unfold Contest.__init
  simp [h1, h2, h5, hne, Nat.not_lt.mpr h3, Nat.not_lt.mpr h4, h7]

/-- C2 (amended): for an Assembly, `__init` with valid arguments succeeds
exactly once: from an uninitialized entity it succeeds and flips
`initialized` to `true`, after which every further `__init` call — with any
arguments whatsoever — fails `AlreadyInitialized` and, under the revert
semantics (`Except.toOption.getD` on the pre-state), leaves the entity's
state unchanged; and on an already-initialized entity `__init` fails
`AlreadyInitialized` outright.  For a Contest the same holds provided the
checked `uint256` addition `votingEnd = block.timestamp + _votingDuration`
does not overflow; when it does, the otherwise-valid `__init` call reverts
with an arithmetic panic and initializes nothing. -/
theorem agora_init_exactly_once (sA : Assembly.State) (creator : Addr)
    (uri : String) (impl fresh : Addr) (sC : Contest.State) (asm pp : Addr)
    (pr : String) (opts : List String) (dur : Nat) (req : List Nat) (now : Nat) :
    ((sA.initialized = false → uri ≠ "" → impl ≠ 0 →
      ∃ sA', Assembly.__init sA creator uri impl fresh = .ok sA' ∧
        sA'.initialized = true ∧
        ∀ c2 u2 i2 f2,
          Assembly.__init sA' c2 u2 i2 f2 = .error .AlreadyInitialized ∧
          (Assembly.__init sA' c2 u2 i2 f2).toOption.getD sA' = sA') ∧
     (sA.initialized = true →
      Assembly.__init sA creator uri impl fresh = .error .AlreadyInitialized)) ∧
    ((sC.initialized = false → pr ≠ "" → 2 ≤ opts.length → opts.length ≤ 10 →
      dur ≠ 0 → (∀ o ∈ opts, o ≠ "") → now + dur < UINT256_MOD →
      ∃ sC', Contest.__init sC asm pp pr opts dur req now = .ok sC' ∧
        sC'.initialized = true ∧
        ∀ a2 p2 pr2 o2 d2 r2 n2,
          Contest.__init sC' a2 p2 pr2 o2 d2 r2 n2 = .error .AlreadyInitialized ∧
          (Contest.__init sC' a2 p2 pr2 o2 d2 r2 n2).toOption.getD sC' = sC') ∧
     (sC.initialized = false → pr ≠ "" → 2 ≤ opts.length → opts.length ≤ 10 →
      dur ≠ 0 → (∀ o ∈ opts, o ≠ "") → UINT256_MOD ≤ now + dur →
      Contest.__init sC asm pp pr opts dur req now = .error .Panic ∧
      (Contest.__init sC asm pp pr opts dur req now).toOption.getD sC = sC) ∧
     (sC.initialized = true →
      Contest.__init sC asm pp pr opts dur req now = .error .AlreadyInitialized)) := by
  constructor
  · constructor
    · intro hinit huri himpl
      refine ⟨Assembly.postInit sA creator uri impl fresh,
        Assembly.assemblyInit_eq_ok sA creator uri impl fresh hinit huri himpl,
        rfl, fun c2 u2 i2 f2 => ⟨rfl, rfl⟩⟩
    · intro hinit
      unfold Assembly.__init
      simp [hinit]
  · refine ⟨?_, ?_, ?_⟩
    · intro hinit hpr hlo hhi hdur hopts hovf
      refine ⟨Contest.postInit sC asm pp pr opts dur req now,
        Contest.__init_eq_ok sC asm pp pr opts dur req now hinit hpr hlo
          (by simpa [Contest.MAX_OPTIONS] using hhi) hdur hopts hovf,
        rfl, fun a2 p2 pr2 o2 d2 r2 n2 => ⟨rfl, rfl⟩⟩
    · intro hinit hpr hlo hhi hdur hopts hovf
      have hpanic := Contest.__init_eq_panic sC asm pp pr opts dur req now
        hinit hpr hlo (by simpa [Contest.MAX_OPTIONS] using hhi) hdur hopts hovf
      exact ⟨hpanic, by rw [hpanic]; rfl⟩
    · intro hinit
      unfold Contest.__init
      simp [hinit]

/-- Witness for the amended C2 at concrete inputs: a fresh Assembly clone
initialized by creator `5` with URI `"m"`; a fresh Contest clone
initialized with prompt `"Q"`, options `["A", "B"]`, duration `10` at time
`0`; and the same otherwise-valid Contest call with duration `2^256 - 1`
at time `1`, which panics on the `votingEnd` overflow. -/
theorem agora_init_exactly_once_witness :
    (∃ sA', Assembly.__init Assembly.initialState 5 "m" 7 9 = .ok sA' ∧
      sA'.initialized = true ∧
      ∀ c2 u2 i2 f2,
        Assembly.__init sA' c2 u2 i2 f2 = .error .AlreadyInitialized ∧
        (Assembly.__init sA' c2 u2 i2 f2).toOption.getD sA' = sA') ∧
    (∃ sC', Contest.__init Contest.initialState 1 2 "Q" ["A", "B"] 10 [] 0 = .ok sC' ∧
      sC'.initialized = true ∧
      ∀ a2 p2 pr2 o2 d2 r2 n2,
        Contest.__init sC' a2 p2 pr2 o2 d2 r2 n2 = .error .AlreadyInitialized ∧
        (Contest.__init sC' a2 p2 pr2 o2 d2 r2 n2).toOption.getD sC' = sC') ∧
    (Contest.__init Contest.initialState 1 2 "Q" ["A", "B"] (UINT256_MOD - 1) [] 1
        = .error .Panic ∧
      (Contest.__init Contest.initialState 1 2 "Q" ["A", "B"] (UINT256_MOD - 1) [] 1).toOption.getD
          Contest.initialState
        = Contest.initialState) := by
  have h := agora_init_exactly_once Assembly.initialState 5 "m" 7 9
    Contest.initialState 1 2 "Q" ["A", "B"] 10 [] 0
  have hp := agora_init_exactly_once Assembly.initialState 5 "m" 7 9
    Contest.initialState 1 2 "Q" ["A", "B"] (UINT256_MOD - 1) [] 1
  exact ⟨h.1.1 rfl (by decide) (by decide),
    h.2.1 rfl (by decide) (by decide) (by decide) (by decide) (by decide) (by decide),
    hp.2.2.1 rfl (by decide) (by decide) (by decide) (by decide) (by decide) (by decide)⟩

/-- Counterexample to C2 as stated: on a fresh Contest clone, `__init` with
spec-valid arguments — non-empty prompt, two non-empty options, non-zero
duration — but duration `2^256 - 1` at time `1` does *not* succeed: the
checked addition `votingEnd = block.timestamp + _votingDuration`
(`Contest.sol:104`) overflows `uint256` and the call reverts with an
arithmetic panic. -/
theorem agora_init_exactly_once_counterexample :
    Contest.initialState.initialized = false ∧
    UINT256_MOD - 1 ≠ 0 ∧
    Contest.__init Contest.initialState 1 2 "Q" ["A", "B"] (UINT256_MOD - 1) [] 1
      = .error .Panic ∧
    ∀ s', Contest.__init Contest.initialState 1 2 "Q" ["A", "B"] (UINT256_MOD - 1) [] 1
      ≠ .ok s' := by
  refine ⟨rfl, by decide, rfl, ?_⟩
  intro s' h
  rw [show Contest.__init Contest.initialState 1 2 "Q" ["A", "B"] (UINT256_MOD - 1) [] 1
      = .error .Panic from rfl] at h
  exact Except.noConfusion h

/-- Inversion of a successful self-service `mint`. -/
theorem AssemblyPassports.mint_ok_inversion {s : AssemblyPassports.State}
    {caller : Addr} {tokenId : Nat} {s' : AssemblyPassports.State}
    (h : AssemblyPassports.mint s caller tokenId = .ok s') :
    (s.passportTypes tokenId).exists_ = true ∧
    AssemblyPassports.balanceOf s caller tokenId = 0 ∧
    s' = AssemblyPassports._mint s caller tokenId := by
  unfold AssemblyPassports.mint at h
  split at h
  · exact absurd h (by simp)
  · split at h
    · exact absurd h (by simp)
    · split at h
      · exact absurd h (by simp)
      · rename_i h1 h2 h3
        refine ⟨by simpa using h1, by omega, (Except.ok.inj h).symm⟩

/-- Inversion of a successful `addToAllowlist`: only the allowlist mapping
changes. -/
theorem AssemblyPassports.addToAllowlist_ok_inversion {s : AssemblyPassports.State}
    {caller : Addr} {tokenId : Nat} {accounts : List Addr}
    {s' : AssemblyPassports.State}
    (h : AssemblyPassports.addToAllowlist s caller tokenId accounts = .ok s') :
    s'.balances = s.balances ∧ s'.passportTypes = s.passportTypes := by
  unfold AssemblyPassports.addToAllowlist at h
  split at h
  · exact absurd h (by simp)
  · split at h
    · exact absurd h (by simp)
    · split at h
      · exact absurd h (by simp)
      · rw [← Except.ok.inj h]
        exact ⟨rfl, rfl⟩

/-- C5: a self-service `mint(typeId)` by a caller who already holds that
passport type fails `AlreadyHoldsPassport` whatever the type's open flag
and allowlist say (the duplicate check is decided before the eligibility
check); in particular after a successful `mint` every repeat `mint` of the
same type by the same caller fails `AlreadyHoldsPassport`, including after
any successful `addToAllowlist` — even one that allowlists the caller. -/
theorem passports_second_mint_fails (s : AssemblyPassports.State)
    (caller : Addr) (tokenId : Nat) :
    ((s.passportTypes tokenId).exists_ = true →
      AssemblyPassports.balanceOf s caller tokenId > 0 →
      AssemblyPassports.mint s caller tokenId = .error .AlreadyHoldsPassport) ∧
    (∀ s', AssemblyPassports.mint s caller tokenId = .ok s' →
      AssemblyPassports.mint s' caller tokenId = .error .AlreadyHoldsPassport ∧
      ∀ ownerCaller tokenId2 accounts s'',
        AssemblyPassports.addToAllowlist s' ownerCaller tokenId2 accounts = .ok s'' →
        AssemblyPassports.mint s'' caller tokenId = .error .AlreadyHoldsPassport) := by
  have key : ∀ t : AssemblyPassports.State,
      (t.passportTypes tokenId).exists_ = true →
      AssemblyPassports.balanceOf t caller tokenId > 0 →
      AssemblyPassports.mint t caller tokenId = .error .AlreadyHoldsPassport := by
    intro t hex hbal
    unfold AssemblyPassports.mint
    simp [hex, hbal]
  refine ⟨key s, ?_⟩
  intro s' hok
  obtain ⟨hex, hbal, hs'⟩ := AssemblyPassports.mint_ok_inversion hok
  have hex' : (s'.passportTypes tokenId).exists_ = true := by
    rw [hs']; exact hex
  have hbal' : AssemblyPassports.balanceOf s' caller tokenId > 0 := by
    rw [hs']
    simp [AssemblyPassports.balanceOf, AssemblyPassports._mint]
  refine ⟨key s' hex' hbal', ?_⟩
  intro ownerCaller tokenId2 accounts s'' hadd
  obtain ⟨hbaleq, htypeq⟩ := AssemblyPassports.addToAllowlist_ok_inversion hadd
  refine key s'' (by rw [htypeq]; exact hex') ?_
  have hb : AssemblyPassports.balanceOf s'' caller tokenId
      = AssemblyPassports.balanceOf s' caller tokenId := by
    unfold AssemblyPassports.balanceOf
    rw [hbaleq]
  omega

/-- Witness for C5 at a concrete input: on a ledger where type `1` exists
and `7` already minted it, a repeat mint fails `AlreadyHoldsPassport`, also
after `7` is allowlisted for type `1`. -/
theorem passports_second_mint_fails_witness :
    ((exPassports2.passportTypes 1).exists_ = true ∧
      AssemblyPassports.balanceOf exPassports2 7 1 > 0 ∧
      AssemblyPassports.mint exPassports2 7 1 = .error .AlreadyHoldsPassport) ∧
    (AssemblyPassports.mint exPassports1 7 1 = .ok exPassports2 ∧
      AssemblyPassports.mint exPassports2 7 1 = .error .AlreadyHoldsPassport ∧
      ∀ s'', AssemblyPassports.addToAllowlist exPassports2 3 1 [7] = .ok s'' →
        AssemblyPassports.mint s'' 7 1 = .error .AlreadyHoldsPassport) := by
  have h := passports_second_mint_fails exPassports2 7 1
  have h2 := (passports_second_mint_fails exPassports1 7 1).2 exPassports2 rfl
  exact ⟨⟨rfl, by decide, h.1 rfl (by decide)⟩,
    ⟨rfl, h2.1, fun s'' hadd => h2.2 3 1 [7] s'' hadd⟩⟩

/-- Inversion of a successful `removeAdmin`: the exact post-state. -/
theorem Assembly.removeAdmin_ok_inversion {s : Assembly.State}
    {caller admin : Addr} {s' : Assembly.State}
    (h : Assembly.removeAdmin s caller admin = .ok s') :
    Assembly.hasRole s .admin caller = true ∧ s.initialized = true ∧
    s' = { s with
      roles := fun r a => if r = .admin ∧ a = admin then false else s.roles r a } := by
  unfold Assembly.removeAdmin Assembly.revokeRole at h
  split at h
  · exact absurd h (by simp)
  · split at h
    · exact absurd h (by simp)
    · split at h
      · exact absurd h (by simp)
      · rename_i h1 h2 h3
        refine ⟨by simpa using h1, by simpa using h2, (Except.ok.inj h).symm⟩

/-- C9: a successful `removeAdmin(a)` changes only the role grant:
`isAdmin(a)` becomes `false` and no other address's role changes, while the
`_adminList` enumeration is untouched — `getAdminCount` and every
`getAdminAt(i)` answer as before, the `_isAdmin` list-membership map is
unchanged, and `a` (if enumerated before) is still enumerated. -/
theorem assembly_removeAdmin_frame (s : Assembly.State) (caller a : Addr)
    (s' : Assembly.State) (h : Assembly.removeAdmin s caller a = .ok s') :
    Assembly.isAdmin s' a = false ∧
    s'.adminList = s.adminList ∧
    Assembly.getAdminCount s' = Assembly.getAdminCount s ∧
    (∀ i, Assembly.getAdminAt s' i = Assembly.getAdminAt s i) ∧
    (a ∈ s.adminList → a ∈ s'.adminList) ∧
    s'.isAdminMap = s.isAdminMap ∧
    (∀ b, b ≠ a → Assembly.isAdmin s' b = Assembly.isAdmin s b) := by
  obtain ⟨hrole, hinit, hs'⟩ := Assembly.removeAdmin_ok_inversion h
  subst hs'
  refine ⟨?_, rfl, rfl, fun i => rfl, fun hmem => hmem, rfl, ?_⟩
  · simp [Assembly.isAdmin, Assembly.hasRole]
  · intro b hb
    simp [Assembly.isAdmin, Assembly.hasRole, hb]

/-- Witness for C9 at a concrete input: creator `5` removes itself; the
role is gone but the enumeration still lists it. -/
theorem assembly_removeAdmin_frame_witness :
    Assembly.removeAdmin exAssembly1 5 5 = .ok exAssembly2 ∧
    Assembly.isAdmin exAssembly2 5 = false ∧
    exAssembly2.adminList = exAssembly1.adminList ∧
    Assembly.getAdminCount exAssembly2 = Assembly.getAdminCount exAssembly1 ∧
    (∀ i, Assembly.getAdminAt exAssembly2 i = Assembly.getAdminAt exAssembly1 i) ∧
    (5 ∈ exAssembly1.adminList → 5 ∈ exAssembly2.adminList) := by
  have h := assembly_removeAdmin_frame exAssembly1 5 5 exAssembly2 rfl
  exact ⟨rfl, h.1, h.2.1, h.2.2.1, h.2.2.2.1, h.2.2.2.2.1⟩

/-- C1: a successful `vote(optionIndex)` marks the caller as voted with the
chosen index and increments exactly that option's tally and the total
together (every other tally entry and every other ballot record is
untouched); afterwards every later `vote` call by the same caller — any
option, any time, any passport state — fails, leaving the state unchanged
under the revert semantics, and it fails with `AlreadyVoted` precisely when
the later call still falls inside the voting period (after `votingEnd` the
`votingActive` modifier reverts first with `VotingEnded`). -/
theorem contest_vote_at_most_once (ps : AssemblyPassports.State)
    (s : Contest.State) (caller : Addr) (idx now : Nat) (s' : Contest.State)
    (h : Contest.vote ps s caller idx now = .ok s') :
    s'.hasVoted caller = true ∧
    s'.userVote caller = idx ∧
    idx < s.options.length ∧
    s'.voteTally idx = s.voteTally idx + 1 ∧
    s'.totalVotes = s.totalVotes + 1 ∧
    (∀ j, j ≠ idx → s'.voteTally j = s.voteTally j) ∧
    (∀ b, b ≠ caller → s'.hasVoted b = s.hasVoted b ∧ s'.userVote b = s.userVote b) ∧
    (∀ ps2 idx2 now2, (∃ e, Contest.vote ps2 s' caller idx2 now2 = .error e) ∧
      Contest.voteRun ps2 s' caller idx2 now2 = s') ∧
    (∀ ps2 idx2 now2, now2 < s'.votingEnd →
      Contest.vote ps2 s' caller idx2 now2 = .error .AlreadyVoted) := by
  obtain ⟨hnow, hinit, hvoted, hidx, hs'⟩ := Contest.vote_ok_inversion h
  have hHV : s'.hasVoted caller = true := by rw [hs']; simp
  have hUV : s'.userVote caller = idx := by rw [hs']; simp
  have hVT : s'.voteTally idx = s.voteTally idx + 1 := by rw [hs']; simp
  have hTV : s'.totalVotes = s.totalVotes + 1 := by rw [hs']
  have hInit' : s'.initialized = true := by rw [hs']; exact hinit
  refine ⟨hHV, hUV, hidx, hVT, hTV, ?_, ?_, ?_, ?_⟩
  · intro j hj
    rw [hs']
    simp [hj]
  · intro b hb
    rw [hs']
    simp [hb]
  · intro ps2 idx2 now2
    by_cases h2 : now2 < s'.votingEnd
    · have hfail : Contest.vote ps2 s' caller idx2 now2 = .error .AlreadyVoted := by
        unfold Contest.vote
        simp [Nat.not_le.mpr h2, hInit', hHV]
      exact ⟨⟨.AlreadyVoted, hfail⟩, by simp [Contest.voteRun, hfail, Except.toOption]⟩
    · have hfail : Contest.vote ps2 s' caller idx2 now2 = .error .VotingEnded := by
        unfold Contest.vote
        simp [Nat.le_of_not_lt h2]
      exact ⟨⟨.VotingEnded, hfail⟩, by simp [Contest.voteRun, hfail, Except.toOption]⟩
  · intro ps2 idx2 now2 h2
    unfold Contest.vote
    simp [Nat.not_le.mpr h2, hInit', hHV]

/-- Counterexample to C1 as stated: in the concrete contest `exContest1`
(voting ends at time `10`), voter `7` votes successfully at time `0`; the
voter's repeat `vote` call at time `10` fails — but with `VotingEnded`,
not `AlreadyVoted`, because the `votingActive` modifier is checked before
the ballot record. -/
theorem contest_vote_at_most_once_counterexample :
    Contest.vote exPassports exContest1 7 0 0 = .ok exContest2 ∧
    Contest.vote exPassports exContest2 7 0 10 = .error .VotingEnded ∧
    Contest.vote exPassports exContest2 7 0 10 ≠ .error .AlreadyVoted := by
  refine ⟨rfl, rfl, ?_⟩
  intro h
  rw [show Contest.vote exPassports exContest2 7 0 10 = .error .VotingEnded from rfl]
    at h
  exact absurd (Except.error.inj h) (by decide)

/-- Witness for the C1 theorem at a concrete input: voter `7` votes for
option `0` in `exContest1` at time `0`; the repeat call at time `5` (still
inside the voting period) fails `AlreadyVoted`. -/
theorem contest_vote_at_most_once_witness :
    exContest2.hasVoted 7 = true ∧
    exContest2.voteTally 0 = exContest1.voteTally 0 + 1 ∧
    exContest2.totalVotes = exContest1.totalVotes + 1 ∧
    Contest.vote exPassports exContest2 7 1 5 = .error .AlreadyVoted := by
  have h := contest_vote_at_most_once exPassports exContest1 7 0 0 exContest2 rfl
  exact ⟨h.1, h.2.2.2.1, h.2.2.2.2.1, h.2.2.2.2.2.2.2.2 exPassports 1 5 (by decide)⟩

/-- Incrementing one in-range entry of a tally increments its sum by one. -/
theorem sum_range_ite_add_one (t : Nat → Nat) (len idx : Nat) (h : idx < len) :
    ∑ i ∈ Finset.range len, (if i = idx then t i + 1 else t i)
      = (∑ i ∈ Finset.range len, t i) + 1 := by
  have hsplit : ∀ i, (if i = idx then t i + 1 else t i)
      = t i + (if i = idx then 1 else 0) := by
    intro i
    split <;> simp
  rw [Finset.sum_congr rfl fun i _ => hsplit i, Finset.sum_add_distrib]
  congr 1
  rw [Finset.sum_ite_eq' (Finset.range len) idx fun _ => 1]
  simp [Finset.mem_range.mpr h]

/-- The inductive invariant of a reachable Contest state: an uninitialized
contest still has its zeroed storage (in particular `votingEnd = 0`), every
tally entry outside the option range is `0`, and `totalVotes` is the sum of
the in-range tallies. -/
theorem Contest.reachable_invariant (s : Contest.State) (h : Contest.Reachable s) :
    (s.initialized = false → s.votingEnd = 0 ∧ s.options = [] ∧
      (∀ i, s.voteTally i = 0) ∧ s.totalVotes = 0) ∧
    (∀ i, s.options.length ≤ i → s.voteTally i = 0) ∧
    s.totalVotes = ∑ i ∈ Finset.range s.options.length, s.voteTally i := by
  induction h with
  | initial =>
    refine ⟨fun _ => ⟨rfl, rfl, fun i => rfl, rfl⟩, fun i _ => rfl, ?_⟩
    simp [Contest.initialState]
  | step_init hr hok ih =>
    rename_i t t' a p pr opts dur req now
    obtain ⟨hinit, _, _, _, _, _, hs'⟩ := Contest.__init_ok_inversion hok
    obtain ⟨_, _, htz, htv⟩ := ih.1 hinit
    have hIn : t'.initialized = true := by rw [hs']
    have hTal : t'.voteTally = t.voteTally := by rw [hs']
    have hTot : t'.totalVotes = t.totalVotes := by rw [hs']
    refine ⟨fun habs => absurd habs (by simp [hIn]), ?_, ?_⟩
    · intro i _
      rw [hTal]
      exact htz i
    · rw [hTot, hTal, htv]
      simp [htz]
  | step_vote hr hok ih =>
    rename_i ps2 t t' caller2 idx2 now2
    obtain ⟨hnow, hinit, hvoted, hidx, hs'⟩ := Contest.vote_ok_inversion hok
    have hIn : t'.initialized = true := by rw [hs']; exact hinit
    have hOpts : t'.options = t.options := by rw [hs']
    have hTal : t'.voteTally
        = fun i => if i = idx2 then t.voteTally i + 1 else t.voteTally i := by
      rw [hs']
    have hTot : t'.totalVotes = t.totalVotes + 1 := by rw [hs']
    refine ⟨fun habs => absurd habs (by simp [hIn]), ?_, ?_⟩
    · intro i hi
      rw [hOpts] at hi
      rw [hTal]
      simp only
      rw [if_neg (by omega)]
      exact ih.2.1 i hi
    · rw [hTot, hOpts]
      simp only [hTal]
      rw [sum_range_ite_add_one _ _ _ hidx]
      exact congrArg (· + 1) ih.2.2

/-- C6 (amended): on every reachable *uninitialized* Contest, `vote` fails
with `VotingEnded`, not `NotInitialized`: the `votingActive` modifier runs
before the body's `NotInitialized` check, and an uninitialized clone still
has `votingEnd = 0`, which every `block.timestamp` has already reached. -/
theorem contest_vote_uninitialized_fails_votingEnded
    (ps : AssemblyPassports.State) (s : Contest.State) (caller : Addr)
    (idx now : Nat) (hr : Contest.Reachable s) (h : s.initialized = false) :
    Contest.vote ps s caller idx now = .error .VotingEnded := by
  have hend := ((Contest.reachable_invariant s hr).1 h).1
  unfold Contest.vote
  simp [hend]

/-- Counterexample to C6 as stated: on the fresh (uninitialized) contest
clone, a `vote` call at time `0` fails `VotingEnded` — and therefore does
not fail `NotInitialized` as the claim requires. -/
theorem contest_vote_uninitialized_counterexample :
    Contest.initialState.initialized = false ∧
    Contest.vote exPassports Contest.initialState 7 0 0 = .error .VotingEnded ∧
    Contest.vote exPassports Contest.initialState 7 0 0 ≠ .error .NotInitialized := by
  refine ⟨rfl, rfl, ?_⟩
  intro h
  rw [show Contest.vote exPassports Contest.initialState 7 0 0
      = .error .VotingEnded from rfl] at h
  exact absurd (Except.error.inj h) (by decide)

/-- Witness for the amended C6 at a concrete input: the fresh clone at
time `3`. -/
theorem contest_vote_uninitialized_fails_votingEnded_witness :
    Contest.vote exPassports Contest.initialState 7 0 3 = .error .VotingEnded :=
  contest_vote_uninitialized_fails_votingEnded exPassports Contest.initialState
    7 0 3 Contest.Reachable.initial rfl

/-- C10: in every reachable Contest state, `totalVotes` equals the sum of
`voteTally[i]` over the option indices `i < options.length` (the operations
`__init` and `vote` are the contract's only mutators, and `Reachable`
closes the zeroed clone state under exactly those). -/
theorem contest_totalVotes_eq_sum_tallies (s : Contest.State)
    (h : Contest.Reachable s) :
    s.totalVotes = ∑ i ∈ Finset.range s.options.length, s.voteTally i :=
  (Contest.reachable_invariant s h).2.2

/-- Witness for C10 at a concrete reachable state: the initialized contest
`exContest1` after one vote. -/
theorem contest_totalVotes_eq_sum_tallies_witness :
    exContest2.totalVotes
      = ∑ i ∈ Finset.range exContest2.options.length, exContest2.voteTally i :=
  contest_totalVotes_eq_sum_tallies exContest2
    (Contest.Reachable.step_vote
      (Contest.Reachable.step_init Contest.Reachable.initial
        (show Contest.__init Contest.initialState 1 2 "Q" ["A", "B"] 10 [] 0
          = .ok exContest1 from rfl))
      (show Contest.vote exPassports exContest1 7 0 0 = .ok exContest2 from rfl))

/-- Step equation of the `getWinner` scan. -/
theorem Contest.getWinnerLoop_succ (tally : Nat → Nat) (n : Nat) :
    Contest.getWinnerLoop tally (n + 2)
      = (if tally (n + 1) > (Contest.getWinnerLoop tally (n + 1)).2
         then (n + 1, tally (n + 1)) else Contest.getWinnerLoop tally (n + 1)) := by
  unfold Contest.getWinnerLoop
  rw [show n + 2 - 1 = n + 1 from rfl, show n + 1 - 1 = n from rfl,
    List.range'_1_concat, List.foldl_append,
    show (1 : Nat) + n = n + 1 from Nat.add_comm 1 n]
  rfl

/-- The `getWinner` scan keeps the first (lowest-index) strictly greater
tally: over indices `0 .. n` it returns an index realising the maximum
tally, with every earlier index strictly below it. -/
theorem Contest.getWinnerLoop_spec (tally : Nat → Nat) (n : Nat) :
    (Contest.getWinnerLoop tally (n + 1)).2
        = tally (Contest.getWinnerLoop tally (n + 1)).1 ∧
    (Contest.getWinnerLoop tally (n + 1)).1 ≤ n ∧
    (∀ j, j ≤ n → tally j ≤ (Contest.getWinnerLoop tally (n + 1)).2) ∧
    (∀ j, j < (Contest.getWinnerLoop tally (n + 1)).1 →
      tally j < (Contest.getWinnerLoop tally (n + 1)).2) := by
  induction n with
  | zero =>
    refine ⟨rfl, Nat.le_refl 0, ?_, ?_⟩
    · intro j hj
      rw [Nat.le_zero.mp hj]
      exact Nat.le_refl _
    · intro j hj
      exact absurd hj (by simp [Contest.getWinnerLoop])
  | succ n ih =>
    rw [Contest.getWinnerLoop_succ]
    by_cases hc : tally (n + 1) > (Contest.getWinnerLoop tally (n + 1)).2
    · rw [if_pos hc]
      refine ⟨rfl, Nat.le_refl _, ?_, ?_⟩
      · intro j hj
        have : j ≤ n ∨ j = n + 1 := by omega
        rcases this with h | h
        · exact Nat.le_of_lt (Nat.lt_of_le_of_lt (ih.2.2.1 j h) hc)
        · rw [h]
      · intro j hj
        exact Nat.lt_of_le_of_lt (ih.2.2.1 j (by omega)) hc
    · rw [if_neg hc]
      refine ⟨ih.1, Nat.le_trans ih.2.1 (by omega), ?_, ih.2.2.2⟩
      intro j hj
      have : j ≤ n ∨ j = n + 1 := by omega
      rcases this with h | h
      · exact ih.2.2.1 j h
      · rw [h]
        exact Nat.not_lt.mp hc

/-- C4: on every ended contest with at least one option, `getWinner`
returns the lowest index among the options with the maximum tally (the
left-to-right strictly-greater scan), and in particular tallies `[3, 3, 1]`
give winner `(0, 3)` and all-zero tallies give winner `(0, 0)`. -/
theorem contest_getWinner_lowest_max (s : Contest.State) (now : Nat)
    (hend : s.votingEnd ≤ now) (hopts : 0 < s.options.length) :
    (∃ wi wv, Contest.getWinner s now = .ok (wi, wv) ∧
      wv = s.voteTally wi ∧
      wi < s.options.length ∧
      (∀ j, j < s.options.length → s.voteTally j ≤ wv) ∧
      (∀ j, j < wi → s.voteTally j < wv) ∧
      (∀ j, j < s.options.length → s.voteTally j = wv → wi ≤ j)) ∧
    Contest.getWinner exContest331 5 = .ok (0, 3) ∧
    Contest.getWinner exContest000 5 = .ok (0, 0) := by
  refine ⟨?_, rfl, rfl⟩
  have hlen : s.options.length - 1 + 1 = s.options.length := by omega
  have spec := Contest.getWinnerLoop_spec s.voteTally (s.options.length - 1)
  rw [hlen] at spec
  refine ⟨(Contest.getWinnerLoop s.voteTally s.options.length).1,
    (Contest.getWinnerLoop s.voteTally s.options.length).2, ?_, spec.1, ?_, ?_,
    spec.2.2.2, ?_⟩
  · unfold Contest.getWinner
    rw [if_neg (Nat.not_lt.mpr hend)]
  · omega
  · intro j hj
    exact spec.2.2.1 j (by omega)
  · intro j hj heq
    by_contra hlt
    have := spec.2.2.2 j (by omega)
    omega

/-- Witness for C4 at a concrete input: the `[3, 3, 1]` contest, queried at
time `5` (its `votingEnd`). -/
theorem contest_getWinner_lowest_max_witness :
    ∃ wi wv, Contest.getWinner exContest331 5 = .ok (wi, wv) ∧
      wv = exContest331.voteTally wi ∧
      wi < exContest331.options.length ∧
      (∀ j, j < exContest331.options.length → exContest331.voteTally j ≤ wv) ∧
      (∀ j, j < wi → exContest331.voteTally j < wv) ∧
      (∀ j, j < exContest331.options.length → exContest331.voteTally j = wv → wi ≤ j) :=
  (contest_getWinner_lowest_max exContest331 5 (by decide) (by decide)).1

/-- The paginated copy loop produces exactly the `take`/`drop` slice. -/
theorem range_map_getD_eq_slice (l : List Addr) (offset n : Nat)
    (h : offset + n ≤ l.length) :
    (List.range n).map (fun i => l.getD (offset + i) 0)
      = (l.drop offset).take n := by
  apply List.ext_getElem
  · simp only [List.length_map, List.length_range, List.length_take, List.length_drop]
    omega
  · intro i h1 h2
    simp only [List.length_map, List.length_range] at h1
    have hlt : offset + i < l.length := by omega
    simp only [List.getElem_map, List.getElem_range, List.getElem_take,
      List.getElem_drop]
    rw [List.getD_eq_getElem?_getD, List.getElem?_eq_getElem hlt]
    rfl

/-- C8 (amended): `getAssembliesPaginated(offset, limit)` returns the
contiguous slice `getAllAssemblies()[offset : min(offset + limit, total))`
together with the true `total`, for every state and all `offset`, `limit`
such that the checked addition `offset + limit` does not overflow `uint256`
— and unconditionally (even under that overflow) whenever `offset ≥ total`,
where it returns the empty slice and the true `total`. -/
theorem factory_getAssembliesPaginated_slice (s : AgoraFactory.State)
    (offset limit : Nat)
    (h : s.assemblies.length ≤ offset ∨ offset + limit < UINT256_MOD) :
    AgoraFactory.getAssembliesPaginated s offset limit
      = .ok (((AgoraFactory.getAllAssemblies s).drop offset).take
               (min (offset + limit) s.assemblies.length - offset),
             s.assemblies.length) := by
  unfold AgoraFactory.getAssembliesPaginated AgoraFactory.getAllAssemblies
  by_cases h1 : s.assemblies.length ≤ offset
  · rw [if_pos h1, List.drop_eq_nil_of_le h1, List.take_nil]
  · have h2 : offset + limit < UINT256_MOD := by
      rcases h with h | h
      · exact absurd h h1
      · exact h
    rw [if_neg h1, if_neg (by omega)]
    have hmin : (if s.assemblies.length < offset + limit then s.assemblies.length
        else offset + limit) = min (offset + limit) s.assemblies.length := by
      rcases Nat.lt_or_ge s.assemblies.length (offset + limit) with hlt | hge
      · rw [if_pos hlt]
        omega
      · rw [if_neg (by omega)]
        omega
    rw [hmin, range_map_getD_eq_slice s.assemblies offset _ (by omega)]

/-- Counterexample to C8 as stated: with two registered Assemblies,
`getAssembliesPaginated(1, 2^256 - 1)` reverts with the checked-addition
overflow panic (the clamp `end = offset + limit` overflows before it can be
clamped), so the query does *not* "never error". -/
theorem factory_getAssembliesPaginated_counterexample :
    AgoraFactory.getAssembliesPaginated exFactory2 1 (UINT256_MOD - 1)
      = .error .Panic ∧
    ∀ res, AgoraFactory.getAssembliesPaginated exFactory2 1 (UINT256_MOD - 1)
      ≠ .ok res := by
  refine ⟨rfl, ?_⟩
  intro res h
  rw [show AgoraFactory.getAssembliesPaginated exFactory2 1 (UINT256_MOD - 1)
      = .error .Panic from rfl] at h
  exact Except.noConfusion h

/-- Witness for the amended C8 at a concrete input: `offset = 1`,
`limit = 1` on three registered Assemblies yields slice `[20]` and
`total = 3`. -/
theorem factory_getAssembliesPaginated_slice_witness :
    AgoraFactory.getAssembliesPaginated exFactory3 1 1
      = .ok (((AgoraFactory.getAllAssemblies exFactory3).drop 1).take
               (min (1 + 1) exFactory3.assemblies.length - 1),
             exFactory3.assemblies.length) ∧
    (((AgoraFactory.getAllAssemblies exFactory3).drop 1).take
        (min (1 + 1) exFactory3.assemblies.length - 1),
      exFactory3.assemblies.length) = ([20], 3) :=
  ⟨factory_getAssembliesPaginated_slice exFactory3 1 1 (Or.inr (by decide)), rfl⟩

end Agora
